import Mathlib

/-!
Verification of the DS9097/DS18B20 1-Wire temperature reader
(`digitemp_python/digitemp.py`).

The Python source is shallowly embedded below.  Pure functions (`crc8`,
the temperature decode) become Lean functions on `Nat` / `Int` / `ℚ`.
Serial I/O is made explicit: a read that may time out is an
`Option Nat` (the byte read, or `none`), and the simulated 1-Wire bus
used by the discovery algorithm is a list of device ROM codes together
with the open-drain read semantics (a read slot returns 1 exactly when
no active device pulls the line low).
-/

namespace DS9097

/-- CRC-8 lookup table for the Dallas/Maxim polynomial (0x31),
verbatim from `CRC8_TABLE` in the source. -/
def CRC8_TABLE : List Nat := [
    0, 94, 188, 226, 97, 63, 221, 131, 194, 156, 126, 32, 163, 253, 31, 65,
    157, 195, 33, 127, 252, 162, 64, 30, 95, 1, 227, 189, 62, 96, 130, 220,
    35, 125, 159, 193, 66, 28, 254, 160, 225, 191, 93, 3, 128, 222, 60, 98,
    190, 224, 2, 92, 223, 129, 99, 61, 124, 34, 192, 158, 29, 67, 161, 255,
    70, 24, 250, 164, 39, 121, 155, 197, 132, 218, 56, 102, 229, 187, 89, 7,
    219, 133, 103, 57, 186, 228, 6, 88, 25, 71, 165, 251, 120, 38, 196, 154,
    101, 59, 217, 135, 4, 90, 184, 230, 167, 249, 27, 69, 198, 152, 122, 36,
    248, 166, 68, 26, 153, 199, 37, 123, 58, 100, 134, 216, 91, 5, 231, 185,
    140, 210, 48, 110, 237, 179, 81, 15, 78, 16, 242, 172, 47, 113, 147, 205,
    17, 79, 173, 243, 112, 46, 204, 146, 211, 141, 111, 49, 178, 236, 14, 80,
    175, 241, 19, 77, 206, 144, 114, 44, 109, 51, 209, 143, 12, 82, 176, 238,
    50, 108, 142, 208, 83, 13, 239, 177, 240, 174, 76, 18, 145, 207, 45, 115,
    202, 148, 118, 40, 171, 245, 23, 73, 8, 86, 180, 234, 105, 55, 213, 139,
    87, 9, 235, 181, 54, 104, 138, 212, 149, 203, 41, 119, 244, 170, 72, 22,
    233, 183, 85, 11, 136, 214, 52, 106, 43, 117, 151, 201, 74, 20, 246, 168,
    116, 42, 200, 150, 21, 75, 169, 247, 182, 232, 10, 84, 215, 137, 107, 53
]

/-- `crc8`: fold of the table lookup over the byte list, starting from 0
(`crc = CRC8_TABLE[crc ^ byte]` per byte). -/
def crc8 (data : List Nat) : Nat :=
  data.foldl (fun crc byte => CRC8_TABLE.getD (crc ^^^ byte) 0) 0

/-- `reset`: after writing the 0xF0 reset pulse the adapter reads one
byte (`none` models a timed-out read).  The source returns `False` on
timeout, else checks `0x10 <= presence <= 0xE0`. -/
def resetPresence (response : Option Nat) : Bool :=
  match response with
  | none => false
  | some presence => decide (0x10 ≤ presence ∧ presence ≤ 0xE0)

/-- `touch_bit`, transmit side: `tx_byte = 0xFF if bit != 0 else 0x00`. -/
def touchBitTx (bit : Nat) : Nat :=
  if bit != 0 then 0xFF else 0x00

/-- `touch_bit`, receive side: a timed-out read (`none`) yields 0;
otherwise the observed bit is 1 exactly when the byte read back is 0xFF
(`return 1 if rx_byte[0] == 0xFF else 0`). -/
def touchBitRx (rx : Option Nat) : Nat :=
  match rx with
  | none => 0
  | some b => if b == 0xFF then 1 else 0

/-! ### Simulated 1-Wire bus

A device is its 8-byte ROM code.  Reading a bit out of a ROM buffer uses
the source's indexing: `(rom[bit_pos // 8] >> (bit_pos % 8)) & 1`. -/

/-- Bit `pos` (0..63) of an 8-byte buffer, LSB-first inside each byte,
exactly as `search_rom` indexes its `rom` list. -/
def romBit (rom : List Nat) (pos : Nat) : Nat :=
  (rom.getD (pos / 8) 0 >>> (pos % 8)) &&& 1

/-- Open-drain read slot during Search-ROM: the adapter samples with
`touch_bit(1)` and sees 1 only if no active device pulls the line low,
i.e. only if every active device's ROM bit at `pos` is 1.  With no
active devices the line floats high (read 1). -/
def busBit (active : List (List Nat)) (pos : Nat) : Nat :=
  if active.all (fun d => romBit d pos == 1) then 1 else 0

/-- The complement read slot: every active device outputs the complement
of its ROM bit, so the line reads 1 only if every active bit is 0. -/
def busCompBit (active : List (List Nat)) (pos : Nat) : Nat :=
  if active.all (fun d => romBit d pos == 0) then 1 else 0

/-- `rom[byte_idx] |= (1 << bit_idx)` with `byte_idx = pos / 8`,
`bit_idx = pos % 8`. -/
def setRomBit (rom : List Nat) (pos : Nat) : List Nat :=
  rom.set (pos / 8) (rom.getD (pos / 8) 0 ||| (1 <<< (pos % 8)))

/-- Per-pass state of `search_rom`'s inner 64-bit loop.  `pending` is a
ghost field: it records the positions at which the source assigns
`discrepancy = bit_pos` (a discrepancy answered with direction 0); no
other field ever reads it, so it does not influence the computation. -/
structure PassState where
  rom : List Nat
  discrepancy : Nat
  active : List (List Nat)
  lastDevice : Bool
  pending : List Nat
deriving Repr, DecidableEq

/-- The discrepancy resolution of `search_rom` at one position,
returning the chosen `search_direction`, the updated `discrepancy`
register and the (ghost) list of positions at which `discrepancy` was
assigned.  Mirrors the source: on a (0,0) read, at the previous pass's
cursor take 1; above it take 0 and record this position; below it
replay the bit of the in-progress `rom` buffer and, if that bit is 0,
record this position.  On any other read follow `bit`. -/
def searchChoice (lastDiscrepancy : Nat) (rom : List Nat)
    (discrepancy : Nat) (pending : List Nat) (bit comp pos : Nat) :
    Nat × Nat × List Nat :=
  if bit = 0 ∧ comp = 0 then
    if pos = lastDiscrepancy then
      (1, discrepancy, pending)
    else if lastDiscrepancy < pos then
      (0, pos, pending ++ [pos])
    else
      let d := romBit rom pos
      if d = 0 then (d, pos, pending ++ [pos])
      else (d, discrepancy, pending)
  else
    (bit, discrepancy, pending)

/-- One iteration of the `for bit_pos in range(64)` loop of
`search_rom`, against the simulated bus.  A `lastDevice` state is
frozen, which models the `break` on the (1,1) read.  After the
direction is chosen, writing it deselects every device whose ROM bit
differs, and a nonzero direction is stored into the `rom` buffer. -/
def passStep (lastDiscrepancy : Nat) (s : PassState) (pos : Nat) : PassState :=
  if s.lastDevice then s
  else
    let bit := busBit s.active pos
    let comp := busCompBit s.active pos
    if bit = 1 ∧ comp = 1 then
      { s with lastDevice := true }
    else
      let dd := searchChoice lastDiscrepancy s.rom s.discrepancy s.pending
        bit comp pos
      let dir := dd.1
      { rom := if dir ≠ 0 then setRomBit s.rom pos else s.rom
        discrepancy := dd.2.1
        active := s.active.filter (fun d => romBit d pos == dir)
        lastDevice := false
        pending := dd.2.2 }

/-- One full pass of `search_rom`: `rom = [0]*8`, `discrepancy = 0`,
all devices active after the reset, then the 64-position loop. -/
def runPass (devs : List (List Nat)) (lastDiscrepancy : Nat) : PassState :=
  (List.range 64).foldl (passStep lastDiscrepancy)
    ⟨List.replicate 8 0, 0, devs, false, []⟩

/-- The `while not last_device` loop of `search_rom`.  On the simulated
bus a reset sees a presence pulse exactly when some device is attached.
After a pass that was not aborted by the (1,1) anomaly, the cursor is
updated, the ROM is kept only if its CRC-8 is 0, and the loop ends when
the cursor is 0.  `fuel` bounds the number of passes (the Python `while`
has no such bound); every claim below either holds for all `fuel` or is
evaluated where the loop provably exits before the fuel runs out. -/
def searchLoop (devs : List (List Nat)) :
    Nat → Nat → List (List Nat) → List (List Nat)
  | 0, _, acc => acc
  | fuel + 1, lastDiscrepancy, acc =>
    if devs.isEmpty then acc
    else
      let s := runPass devs lastDiscrepancy
      if s.lastDevice then acc
      else
        let acc' := if crc8 s.rom = 0 then acc ++ [s.rom] else acc
        if s.discrepancy = 0 then acc'
        else searchLoop devs fuel s.discrepancy acc'

/-- `search_rom`: discovery starts with `last_discrepancy = 0` and an
empty device list. -/
def search_rom (devs : List (List Nat)) (fuel : Nat) : List (List Nat) :=
  searchLoop devs fuel 0 []

/-! ### Temperature read -/

/-- `temp_raw = (scratchpad[1] << 8) | scratchpad[0]`. -/
def rawTemp (scratchpad : List Nat) : Nat :=
  (scratchpad.getD 1 0 <<< 8) ||| scratchpad.getD 0 0

/-- The sign handling of `read_temperature`:
`if temp_raw & 0x8000: temp_raw = -((temp_raw ^ 0xFFFF) + 1)`. -/
def signedTemp (scratchpad : List Nat) : Int :=
  let t := rawTemp scratchpad
  if t &&& 0x8000 != 0 then -(((t ^^^ 0xFFFF) + 1 : Nat) : Int)
  else (t : Int)

/-- `temp_c = temp_raw * 0.0625`.  The Python float product is exact
here (|raw| ≤ 2^16 and 0.0625 = 2^-4 are dyadic), so `ℚ` models it
faithfully. -/
def tempCelsius (scratchpad : List Nat) : ℚ :=
  (signedTemp scratchpad : ℚ) * (0.0625 : ℚ)

/-- Outcome of `read_temperature`.  The source signals failure by
printing to stderr and returning `None`; the CRC failure message names
the offending ROM, which the `crcMismatch` constructor carries. -/
inductive ReadResult where
  | noPresence : ReadResult
  | crcMismatch (rom : List Nat) : ReadResult
  | ok (tempC : ℚ) : ReadResult
deriving Repr, DecidableEq

/-- `read_temperature`, with the bus interaction made explicit: the two
reset outcomes and the 9 scratchpad bytes read back are parameters.
Mirrors the source's control flow: abort on either failed reset, then
reject the scratchpad if `crc8(scratchpad) != 0` (naming the ROM),
otherwise decode. -/
def read_temperature (reset1 reset2 : Bool) (rom : List Nat)
    (scratchpad : List Nat) : ReadResult :=
  if !reset1 then .noPresence
  else if !reset2 then .noPresence
  else if crc8 scratchpad != 0 then .crcMismatch rom
  else .ok (tempCelsius scratchpad)

/-- Modelled from the spec: "combine byte0 (LSB) and byte1 (MSB) into a
16-bit little-endian unsigned value, reinterpret as two's-complement
signed 16-bit, multiply by 0.0625 to obtain degrees Celsius". -/
def specDecode (b0 b1 : Nat) : ℚ :=
  let u := 256 * b1 + b0
  let s : Int := if u < 32768 then (u : Int) else (u : Int) - 65536
  (s : ℚ) * (0.0625 : ℚ)

/-! ### Batch read loop of `main` -/

/-- The `for idx, rom in enumerate(sensors)` loop of `main`'s read-all
mode.  `readResult rom` is the outcome of `adapter.read_temperature`
for that sensor (`none` = failed read); a `none` is a `continue`, a
`some t` produces the output line for index `idx`. -/
def batchLoop (readResult : List Nat → Option ℚ) (idx : Nat) :
    List (List Nat) → List (Nat × ℚ)
  | [] => []
  | rom :: rest =>
    match readResult rom with
    | none => batchLoop readResult (idx + 1) rest
    | some t => (idx, t) :: batchLoop readResult (idx + 1) rest

/-- Batch read over the configured sensors, starting at index 0. -/
def batchRead (readResult : List Nat → Option ℚ) (sensors : List (List Nat)) :
    List (Nat × ℚ) :=
  batchLoop readResult 0 sensors

/-! ### Concrete test vectors -/

/-- Device A: all-zero ROM (its CRC byte is 0, so `crc8 romA = 0`). -/
def romA : List Nat := [0, 0, 0, 0, 0, 0, 0, 0]

/-- Device B: family byte 0x01; 61 = crc8 of the first seven bytes. -/
def romB : List Nat := [1, 0, 0, 0, 0, 0, 0, 61]

/-- Device C: family byte 0x03; 71 = crc8 of the first seven bytes. -/
def romC : List Nat := [3, 0, 0, 0, 0, 0, 0, 71]

/-- A simulated bus with three distinct CRC-valid devices.  A responds 0
at bit 0; B and C respond 1 at bit 0 and differ at bit 1. -/
def devsABC : List (List Nat) := [romA, romB, romC]

/-- The DS18B20 power-on scratchpad: temperature bytes 0x50 0x05
(raw 0x0550 = 1360), CRC byte 212 = crc8 of the first eight bytes. -/
def sp85 : List Nat := [0x50, 0x05, 0, 0, 0, 0, 0, 0, 212]

/-- `sp85` with the final CRC byte corrupted. -/
def sp85bad : List Nat := [0x50, 0x05, 0, 0, 0, 0, 0, 0, 213]

/-- A well-formed ROM code as produced by discovery: 8 bytes, each
below 256. -/
def romWellFormed (rom : List Nat) : Prop :=
  rom.length = 8 ∧ ∀ b ∈ rom, b < 256

/-- Loop invariant of one Search-ROM pass after processing the first
`n` bit positions: the rom buffer is well-formed, every recorded
pending-discrepancy position is below `n`, and the discrepancy
register holds the most recently recorded (hence largest) pending
position, or 0 when none was recorded yet. -/
def passInv (s : PassState) (n : Nat) : Prop :=
  romWellFormed s.rom
  ∧ (∀ p ∈ s.pending, p < n)
  ∧ ((s.pending = [] ∧ s.discrepancy = 0)
     ∨ (s.pending.getLast? = some s.discrepancy
        ∧ ∀ p ∈ s.pending, p ≤ s.discrepancy))

/-!
## Theorems
-/

/-- C2: `crc8` is a pure Lean function, hence deterministic; and for
every byte sequence `s`, appending the byte `crc8 s` yields a sequence
whose CRC is zero, because the final table step looks up index
`crc8 s ^^^ crc8 s = 0` and `CRC8_TABLE[0] = 0`. -/
theorem crc8_append_self (s : List Nat) : crc8 (s ++ [crc8 s]) = 0 := by
  show (s ++ [crc8 s]).foldl (fun crc byte => CRC8_TABLE.getD (crc ^^^ byte) 0) 0 = 0
  rw [List.foldl_append]
  show CRC8_TABLE.getD (crc8 s ^^^ crc8 s) 0 = 0
  rw [Nat.xor_self]
  rfl

/-- C6: `reset` reports no presence on a timed-out read, and otherwise
reports presence exactly when the response byte lies in the inclusive
window [16, 224]; in particular 15 and 225 are absent while 16 and 224
are present. -/
theorem reset_presence_window :
    resetPresence none = false
    ∧ (∀ p : Nat, resetPresence (some p) = decide (16 ≤ p ∧ p ≤ 224))
    ∧ resetPresence (some 15) = false
    ∧ resetPresence (some 225) = false
    ∧ resetPresence (some 16) = true
    ∧ resetPresence (some 224) = true :=
  ⟨rfl, fun _ => rfl, by decide, by decide, by decide, by decide⟩

/-- C7: `touch_bit` transmits the all-ones byte 0xFF for any nonzero
desired bit and 0x00 for a zero bit, and observes bit 1 exactly when
the readback byte equals 0xFF; any other readback, including a
timed-out read (`none`), observes 0. -/
theorem touch_bit_marker :
    (∀ b : Nat, touchBitTx b = if b = 0 then 0x00 else 0xFF)
    ∧ (∀ r : Option Nat, touchBitRx r = if r = some 0xFF then 1 else 0) := by
  constructor
  · intro b
    by_cases hb : b = 0 <;> simp [touchBitTx, hb]
  · intro r
    match r with
    | none => rfl
    | some b => by_cases hb : b = 0xFF <;> simp [touchBitRx, hb]

set_option maxRecDepth 40000 in
/-- C1 (failing input): on the simulated bus carrying the three
distinct CRC-valid ROM codes `romA`, `romB`, `romC`, `search_rom`
terminates after two passes (well before the fuel runs out) yet returns
only `[romB, romA]`: `romC` is omitted, contradicting the claim that
discovery returns exactly the N presented codes.  The cause: the
"use previous path" replay at positions below the cursor reads the
per-pass `rom` buffer, which is re-zeroed at the start of every pass,
so the previously taken 1-branch at bit 0 is never replayed. -/
theorem search_rom_misses_device :
    search_rom devsABC 100 = [romB, romA]
    ∧ romC ∉ search_rom devsABC 100 := by
  constructor
  · decide
  · decide

/-- C8: when the 9-byte scratchpad fails CRC-8 validation,
`read_temperature` yields the CRC-mismatch failure naming the offending
ROM (the source prints the ROM and returns `None`) instead of any
numeric temperature. -/
theorem read_temperature_crc_reject (rom scratchpad : List Nat)
    (h : crc8 scratchpad ≠ 0) :
    read_temperature true true rom scratchpad = .crcMismatch rom := by
  simp [read_temperature, h]

/-- Witness for C8: the power-on scratchpad with a corrupted final byte
is rejected with a failure naming the ROM. -/
theorem read_temperature_crc_reject_witness :
    crc8 sp85bad ≠ 0
    ∧ read_temperature true true romB sp85bad = .crcMismatch romB :=
  ⟨by decide, read_temperature_crc_reject romB sp85bad (by decide)⟩

/-- The batch loop at any starting index is the `filterMap` of the
per-sensor outcomes over the index-enumerated sensor list. -/
theorem batchLoop_eq_filterMap (f : List Nat → Option ℚ) :
    ∀ (k : Nat) (l : List (List Nat)),
      batchLoop f k l
        = (l.enumFrom k).filterMap (fun p => (f p.2).map (fun t => (p.1, t))) := by
  intro k l
  induction l generalizing k with
  | nil => rfl
  | cons x xs ih =>
    show (match f x with
          | none => batchLoop f (k + 1) xs
          | some t => (k, t) :: batchLoop f (k + 1) xs)
        = _
    rw [List.enumFrom_cons, List.filterMap_cons]
    cases hf : f x with
    | none => simpa [hf] using ih (k + 1)
    | some t => simpa [hf] using ih (k + 1)

/-- C9: the batch read over the configured sensors equals the
`filterMap` of the per-sensor outcomes over the enumerated sensor
list: every sensor is visited in order regardless of earlier failures,
a failed sensor (`none`, covering CRC mismatch and presence failure)
contributes no output line, and each success contributes its own
indexed line. -/
theorem batch_read_continues (f : List Nat → Option ℚ)
    (sensors : List (List Nat)) :
    batchRead f sensors
      = sensors.enum.filterMap (fun p => (f p.2).map (fun t => (p.1, t))) :=
  batchLoop_eq_filterMap f 0 sensors

/-- XOR against an all-ones mask is complement: for `t < 2^n`,
`t ^^^ (2^n - 1) = 2^n - 1 - t`. -/
theorem xor_two_pow_sub_one (n : Nat) :
    ∀ t, t < 2 ^ n → t ^^^ (2 ^ n - 1) = 2 ^ n - 1 - t := by
  induction n with
  | zero =>
    intro t ht
    have ht0 : t = 0 := by simpa using ht
    subst ht0
    decide
  | succ n ih =>
    intro t ht
    have hp : 2 ^ (n + 1) = 2 * 2 ^ n := by rw [Nat.pow_succ]; ring
    have h1 : 1 ≤ 2 ^ n := Nat.one_le_two_pow
    have hmask : (2 ^ (n + 1) - 1 : Nat) = Nat.bit true (2 ^ n - 1) := by
      rw [Nat.bit_val]
      simp only [Bool.toNat_true]
      omega
    have hdecomp := Nat.bit_decomp t
    have htval : 2 * t.div2 + (t.bodd).toNat = t := by
      rw [← Nat.bit_val, hdecomp]
    have hbb : (t.bodd).toNat ≤ 1 := Bool.toNat_le t.bodd
    have hdiv : t.div2 < 2 ^ n := by omega
    conv_lhs => rw [← hdecomp]
    rw [hmask, Nat.xor_bit, ih _ hdiv, Nat.bit_val]
    cases hbo : t.bodd <;> rw [hbo] at htval <;> simp at htval ⊢ <;> omega

/-- Bitwise OR of a left-shifted value with a small addend is addition:
for `b < 2^n`, `(a <<< n) ||| b = a <<< n + b`. -/
theorem shiftLeft_lor_small (a : Nat) :
    ∀ (n b : Nat), b < 2 ^ n → (a <<< n) ||| b = a <<< n + b := by
  intro n
  induction n with
  | zero =>
    intro b hb
    have hb0 : b = 0 := by simpa using hb
    subst hb0
    simp
  | succ n ih =>
    intro b hb
    have hbdecomp := Nat.bit_decomp b
    have hbval : 2 * b.div2 + (b.bodd).toNat = b := by
      rw [← Nat.bit_val, hbdecomp]
    have hbb : (b.bodd).toNat ≤ 1 := Bool.toNat_le b.bodd
    have hp : 2 ^ (n + 1) = 2 * 2 ^ n := by rw [Nat.pow_succ]; ring
    have hdiv : b.div2 < 2 ^ n := by omega
    have hshift : a <<< (n + 1) = Nat.bit false (a <<< n) := by
      rw [Nat.bit_val, Nat.shiftLeft_succ]
      simp
    have h2 : a <<< (n + 1) = 2 * (a <<< n) := Nat.shiftLeft_succ a n
    conv_lhs => rw [← hbdecomp, hshift, Nat.lor_bit]
    rw [Bool.false_or, ih _ hdiv, Nat.bit_val]
    omega

/-- The little-endian combine of `read_temperature`: for a byte value
`b0 < 256`, `(b1 << 8) | b0 = 256 * b1 + b0`. -/
theorem rawTemp_cons (b0 b1 : Nat) (rest : List Nat) (h0 : b0 < 256) :
    rawTemp (b0 :: b1 :: rest) = 256 * b1 + b0 := by
  show (b1 <<< 8) ||| b0 = 256 * b1 + b0
  rw [shiftLeft_lor_small b1 8 b0 (by norm_num; omega), Nat.shiftLeft_eq]
  ring

/-- The sign test of `read_temperature`: for `t < 2^16`, the masked
value `t &&& 0x8000` is nonzero exactly when `32768 ≤ t`. -/
theorem and_sign_bit (t : Nat) (ht : t < 65536) :
    (t &&& 0x8000 != 0) = decide (32768 ≤ t) := by
  have h : t &&& 0x8000 = (t.testBit 15).toNat * 32768 := by
    have h2 := Nat.and_two_pow t 15
    norm_num at h2
    exact h2
  have htb : t.testBit 15 = decide (32768 ≤ t) := by
    rw [Nat.testBit_to_div_mod, decide_eq_decide]
    have h15 : (2 : Nat) ^ 15 = 32768 := by norm_num
    rw [h15]
    omega
  rw [h, htb]
  by_cases hc : 32768 ≤ t
  · simp [hc]
  · simp [hc]

/-- The two's-complement reinterpretation performed by
`read_temperature`: for bytes below 256, the signed value is the raw
16-bit value itself below 32768 and the raw value minus 65536 above. -/
theorem signedTemp_cons (b0 b1 : Nat) (rest : List Nat)
    (h0 : b0 < 256) (h1 : b1 < 256) :
    signedTemp (b0 :: b1 :: rest)
      = (if 256 * b1 + b0 < 32768 then ((256 * b1 + b0 : Nat) : Int)
         else ((256 * b1 + b0 : Nat) : Int) - 65536) := by
  have hraw := rawTemp_cons b0 b1 rest h0
  have hu : 256 * b1 + b0 < 65536 := by omega
  simp only [signedTemp, hraw, and_sign_bit (256 * b1 + b0) hu,
    decide_eq_true_eq]
  by_cases hcase : 32768 ≤ 256 * b1 + b0
  · have hx : (256 * b1 + b0) ^^^ 65535 = 65535 - (256 * b1 + b0) := by
      have h16 := xor_two_pow_sub_one 16 (256 * b1 + b0) (by norm_num; omega)
      norm_num at h16
      exact h16
    rw [if_pos hcase, if_neg (by omega), hx]
    omega
  · rw [if_neg hcase, if_pos (by omega)]

/-- C3: `read_temperature` decodes the scratchpad by combining byte 0
(LSB) and byte 1 (MSB) into a 16-bit little-endian unsigned value,
reinterpreting it as two's-complement signed 16-bit, and multiplying by
0.0625 — exactly the spec-side `specDecode`; the power-on scratchpad
`[0x50, 0x05, ...]` with valid CRC reads as exactly 85 °C, and the raw
value 0xFF5E (sign bit set) decodes to -162 * 0.0625 = -10.125 °C. -/
theorem read_temperature_decode :
    (∀ (b0 b1 : Nat) (rest : List Nat), b0 < 256 → b1 < 256 →
        tempCelsius (b0 :: b1 :: rest) = specDecode b0 b1)
    ∧ read_temperature true true romA sp85 = .ok 85
    ∧ tempCelsius [0x5E, 0xFF] = -(162 : ℚ) * (0.0625 : ℚ) := by
  refine ⟨?_, ?_, ?_⟩
  · intro b0 b1 rest h0 h1
    unfold tempCelsius specDecode
    rw [signedTemp_cons b0 b1 rest h0 h1]
  · have hcrc : crc8 sp85 = 0 := by decide
    have hs : signedTemp sp85 = 1360 := by decide
    have h85 : tempCelsius sp85 = 85 := by
      rw [tempCelsius, hs]
      norm_num
    simp [read_temperature, hcrc, h85]
  · have hs : signedTemp [0x5E, 0xFF] = -162 := by decide
    rw [tempCelsius, hs]
    norm_num

/-- Witness for C3: the general decode statement applied to the
concrete sign-bit-set raw value 0xFF5E. -/
theorem read_temperature_decode_witness :
    0x5E < 256 ∧ 0xFF < 256
    ∧ tempCelsius [0x5E, 0xFF] = specDecode 0x5E 0xFF :=
  ⟨by decide, by decide,
   read_temperature_decode.1 0x5E 0xFF [] (by decide) (by decide)⟩

/-- A `getD`-read with default 0 from a list of bytes is a byte. -/
theorem getD_lt_256 (l : List Nat) (h : ∀ b ∈ l, b < 256) :
    ∀ n : Nat, l.getD n 0 < 256 := by
  induction l with
  | nil =>
    intro n
    simp [List.getD]
  | cons x xs ih =>
    intro n
    cases n with
    | zero => simpa using h x (List.mem_cons_self x xs)
    | succ m =>
      rw [List.getD_cons_succ]
      exact ih (fun b hb => h b (List.mem_cons_of_mem x hb)) m

/-- Setting one ROM bit (OR-ing `1 << bit_idx` into one byte) keeps the
buffer an 8-byte list of values below 256. -/
theorem setRomBit_wellFormed (rom : List Nat) (pos : Nat)
    (h : romWellFormed rom) : romWellFormed (setRomBit rom pos) := by
  obtain ⟨hlen, hmem⟩ := h
  constructor
  · rw [setRomBit, List.length_set, hlen]
  · intro b hb
    rcases List.mem_or_eq_of_mem_set hb with hmem2 | heq
    · exact hmem b hmem2
    · subst heq
      have h1 : rom.getD (pos / 8) 0 < 2 ^ 8 := by
        show rom.getD (pos / 8) 0 < 256
        exact getD_lt_256 rom hmem (pos / 8)
      have h2 : (1 <<< (pos % 8)) < 2 ^ 8 := by
        rw [Nat.shiftLeft_eq, Nat.one_mul]
        have hm : pos % 8 < 8 := Nat.mod_lt pos (by omega)
        exact Nat.pow_lt_pow_right (by omega) hm
      exact Nat.or_lt_two_pow h1 h2

/-- The discrepancy resolution either leaves the cursor register and
the pending list unchanged, or sets the cursor to the current position
and appends that position to the pending list. -/
theorem searchChoice_cases (L : Nat) (rom : List Nat) (disc : Nat)
    (pending : List Nat) (bit comp pos : Nat) :
    ((searchChoice L rom disc pending bit comp pos).2.1 = disc
      ∧ (searchChoice L rom disc pending bit comp pos).2.2 = pending)
    ∨ ((searchChoice L rom disc pending bit comp pos).2.1 = pos
      ∧ (searchChoice L rom disc pending bit comp pos).2.2
          = pending ++ [pos]) := by
  unfold searchChoice
  split
  · split
    · exact Or.inl ⟨rfl, rfl⟩
    · split
      · exact Or.inr ⟨rfl, rfl⟩
      · dsimp only
        split
        · exact Or.inr ⟨rfl, rfl⟩
        · exact Or.inl ⟨rfl, rfl⟩
  · exact Or.inl ⟨rfl, rfl⟩

/-- One iteration of the pass loop at position `n` preserves the pass
invariant. -/
theorem passStep_inv (L n : Nat) (s : PassState) (h : passInv s n) :
    passInv (passStep L s n) (n + 1) := by
  obtain ⟨hrom, hbound, hcursor⟩ := h
  unfold passInv
  have hweak : ∀ p ∈ s.pending, p < n + 1 :=
    fun p hp => Nat.lt_succ_of_lt (hbound p hp)
  have hsetrom := setRomBit_wellFormed s.rom n hrom
  have hext : ((s.pending ++ [n] = [] ∧ n = 0)
       ∨ ((s.pending ++ [n]).getLast? = some n
          ∧ ∀ p ∈ s.pending ++ [n], p ≤ n)) := by
    right
    refine ⟨List.getLast?_concat s.pending, ?_⟩
    intro p hp
    rcases List.mem_append.mp hp with h | h
    · exact Nat.le_of_lt (hbound p h)
    · have hpn : p = n := List.mem_singleton.mp h
      omega
  have hextbound : ∀ p ∈ s.pending ++ [n], p < n + 1 := by
    intro p hp
    rcases List.mem_append.mp hp with h | h
    · exact Nat.lt_succ_of_lt (hbound p h)
    · have hpn : p = n := List.mem_singleton.mp h
      omega
  by_cases hLD : s.lastDevice = true
  · have hfrozen : passStep L s n = s := by
      simp [passStep, hLD]
    rw [hfrozen]
    exact ⟨hrom, hweak, hcursor⟩
  · by_cases hAnom : busBit s.active n = 1 ∧ busCompBit s.active n = 1
    · have hstop : passStep L s n = { s with lastDevice := true } := by
        simp [passStep, hLD, hAnom]
      rw [hstop]
      exact ⟨hrom, hweak, hcursor⟩
    · simp only [passStep]
      rw [if_neg hLD, if_neg hAnom]
      dsimp only
      rcases searchChoice_cases L s.rom s.discrepancy s.pending
          (busBit s.active n) (busCompBit s.active n) n with ⟨hd, hp⟩ | ⟨hd, hp⟩
      · rw [hd, hp]
        refine ⟨?_, hweak, hcursor⟩
        split
        · exact hsetrom
        · exact hrom
      · rw [hd, hp]
        refine ⟨?_, hextbound, hext⟩
        split
        · exact hsetrom
        · exact hrom

/-- A full 64-position pass satisfies the pass invariant. -/
theorem runPass_inv (devs : List (List Nat)) (L : Nat) :
    passInv (runPass devs L) 64 := by
  have key : ∀ m : Nat, passInv ((List.range m).foldl (passStep L)
      ⟨List.replicate 8 0, 0, devs, false, []⟩) m := by
    intro m
    induction m with
    | zero =>
      refine ⟨⟨rfl, ?_⟩, ?_, Or.inl ⟨rfl, rfl⟩⟩
      · intro b hb
        have hb0 : b = 0 := List.eq_of_mem_replicate hb
        omega
      · intro p hp
        simp at hp
    | succ m ih =>
      rw [List.range_succ, List.foldl_append]
      exact passStep_inv L m _ ih
  exact key 64

/-- C4: at the end of a Search-ROM pass the discrepancy cursor equals
the largest pending-discrepancy position recorded during the pass, and
is 0 when none was recorded.  `pending` collects, in visit order, every
position at which a (0,0) discrepancy was answered with direction 0 —
including the positions below the previous cursor where the bit
replayed from the in-progress ROM buffer was 0 — so the cursor being
the last element and an upper bound of `pending` says exactly that a
later replayed-0 position at a higher index overrides an earlier
one. -/
theorem search_pass_cursor_max (devs : List (List Nat)) (L : Nat) :
    ((runPass devs L).pending = [] ∧ (runPass devs L).discrepancy = 0)
    ∨ ((runPass devs L).pending.getLast? = some (runPass devs L).discrepancy
       ∧ ∀ p ∈ (runPass devs L).pending, p ≤ (runPass devs L).discrepancy) :=
  (runPass_inv devs L).2.2

/-- Every ROM in the output of the discovery loop is inherited from the
accumulator or is the rom of some completed pass that passed the CRC
check. -/
theorem searchLoop_mem (devs : List (List Nat)) :
    ∀ (fuel L : Nat) (acc : List (List Nat)) (r : List Nat),
      r ∈ searchLoop devs fuel L acc →
      r ∈ acc ∨ (∃ L0, r = (runPass devs L0).rom ∧ crc8 r = 0) := by
  intro fuel
  induction fuel with
  | zero =>
    intro L acc r hr
    exact Or.inl hr
  | succ fuel ih =>
    intro L acc r hr
    simp only [searchLoop] at hr
    by_cases hemp : devs.isEmpty = true
    · rw [if_pos hemp] at hr
      exact Or.inl hr
    · rw [if_neg hemp] at hr
      by_cases hLD : (runPass devs L).lastDevice = true
      · rw [if_pos hLD] at hr
        exact Or.inl hr
      · rw [if_neg hLD] at hr
        have haccmem : ∀ x, x ∈ (if crc8 (runPass devs L).rom = 0
              then acc ++ [(runPass devs L).rom] else acc) →
            x ∈ acc ∨ (∃ L0, x = (runPass devs L0).rom ∧ crc8 x = 0) := by
          intro x hx
          by_cases hcrc : crc8 (runPass devs L).rom = 0
          · rw [if_pos hcrc] at hx
            rcases List.mem_append.mp hx with h | h
            · exact Or.inl h
            · have hx2 : x = (runPass devs L).rom := List.mem_singleton.mp h
              exact Or.inr ⟨L, hx2, hx2 ▸ hcrc⟩
          · rw [if_neg hcrc] at hx
            exact Or.inl hx
        by_cases hdisc : (runPass devs L).discrepancy = 0
        · rw [if_pos hdisc] at hr
          exact haccmem r hr
        · rw [if_neg hdisc] at hr
          rcases ih _ _ r hr with h | h
          · exact haccmem r h
          · exact Or.inr h

/-- C5: every ROM code in the sequence returned by `search_rom` passes
CRC-8 validation.  A pass whose assembled ROM has nonzero CRC-8 appends
nothing to the result (a silent discard, `else: pass` in the source)
and the discovery loop proceeds to its normal termination test, so only
CRC-valid codes ever reach the result. -/
theorem search_rom_crc_valid (devs : List (List Nat)) (fuel : Nat)
    (rom : List Nat) (h : rom ∈ search_rom devs fuel) : crc8 rom = 0 := by
  rcases searchLoop_mem devs fuel 0 [] rom h with h0 | ⟨L0, heq, hcrc⟩
  · exact absurd h0 (List.not_mem_nil rom)
  · exact hcrc

set_option maxRecDepth 40000 in
/-- Witness for C5: a concrete discovered ROM code, with its CRC
evaluating to 0. -/
theorem search_rom_crc_valid_witness :
    romB ∈ search_rom devsABC 100 ∧ crc8 romB = 0 :=
  ⟨by decide, search_rom_crc_valid devsABC 100 romB (by decide)⟩

/-- C10: every element of the sequence returned by `search_rom` is a
well-formed ROM code: a list of exactly 8 integers, each in 0..255,
built by OR-ing single bits into an initially zero 8-byte buffer. -/
theorem search_rom_wellFormed (devs : List (List Nat)) (fuel : Nat)
    (rom : List Nat) (h : rom ∈ search_rom devs fuel) :
    rom.length = 8 ∧ ∀ b ∈ rom, b < 256 := by
  rcases searchLoop_mem devs fuel 0 [] rom h with h0 | ⟨L0, heq, hcrc⟩
  · exact absurd h0 (List.not_mem_nil rom)
  · exact heq ▸ (runPass_inv devs L0).1

set_option maxRecDepth 40000 in
/-- Witness for C10: a concrete discovered ROM code is 8 bytes of
values below 256. -/
theorem search_rom_wellFormed_witness :
    romB ∈ search_rom devsABC 100
    ∧ (romB.length = 8 ∧ ∀ b ∈ romB, b < 256) :=
  ⟨by decide, search_rom_wellFormed devsABC 100 romB (by decide)⟩

end DS9097
